import Mathlib

/-!
Verification of the minimal WebSocket client in
`src/tools/sensory_camera_client.py` (class `SimpleWebSocketClient`).

Bytes are modelled as `Nat` (values `< 256` where relevant), byte strings as
`List Nat`.  Socket reads are modelled by an explicit list of network events
(`NetEvent`): a chunk of bytes (the empty chunk meaning the peer closed the
connection, as in Python where `recv` returning `b""` signals EOF) or a read
timeout.  Fallible operations return `Except`, with the error carrying the
connection state, mirroring the fact that `self.buffer` mutations persist
when an exception propagates.
-/

namespace SensoryCameraClient

/-- Big-endian encoding of `v` into `n` bytes, as `struct.pack` with formats
`!H` (`n = 2`) and `!Q` (`n = 8`) produces for in-range values. -/
def beBytes : Nat → Nat → List Nat
  | 0, _ => []
  | n + 1, v => beBytes n (v / 256) ++ [v % 256]

/-- Big-endian value of a byte list, as `struct.unpack` with `!H` / `!Q`. -/
def beVal (bs : List Nat) : Nat := bs.foldl (fun acc b => acc * 256 + b) 0

theorem beBytes_length (n v : Nat) : (beBytes n v).length = n := by
  induction n generalizing v with
  | zero => rfl
  | succ n ih => simp [beBytes, ih]

theorem beVal_append_singleton (bs : List Nat) (b : Nat) :
    beVal (bs ++ [b]) = beVal bs * 256 + b := by
  simp [beVal, List.foldl_append]

theorem beVal_beBytes (n v : Nat) (h : v < 256 ^ n) : beVal (beBytes n v) = v := by
  induction n generalizing v with
  | zero =>
    interval_cases v
    rfl
  | succ n ih =>
    have hdiv : v / 256 < 256 ^ n := by
      rw [Nat.div_lt_iff_lt_mul (by norm_num)]
      calc v < 256 ^ (n + 1) := h
        _ = 256 ^ n * 256 := by ring
    rw [beBytes, beVal_append_singleton, ih _ hdiv]
    omega

/-- `bytes(b ^ mask_key[i % 4] for i, b in enumerate(payload))` with the
enumeration starting at index `i`. -/
def maskFrom (maskKey : List Nat) (i : Nat) : List Nat → List Nat
  | [] => []
  | b :: bs => (b ^^^ maskKey.getD (i % 4) 0) :: maskFrom maskKey (i + 1) bs

/-- Cyclic XOR masking used by both `_encode_frame` and `_recv_frame`. -/
def maskBytes (maskKey payload : List Nat) : List Nat := maskFrom maskKey 0 payload

theorem maskFrom_length (k : List Nat) (i : Nat) (p : List Nat) :
    (maskFrom k i p).length = p.length := by
  induction p generalizing i with
  | nil => rfl
  | cons b bs ih => simp [maskFrom, ih]

theorem maskBytes_length (k p : List Nat) : (maskBytes k p).length = p.length :=
  maskFrom_length k 0 p

theorem maskFrom_maskFrom (k : List Nat) (i : Nat) (p : List Nat) :
    maskFrom k i (maskFrom k i p) = p := by
  induction p generalizing i with
  | nil => rfl
  | cons b bs ih => simp [maskFrom, ih, Nat.xor_cancel_right]

/-- Masking is involutive: unmasking a just-masked payload with the same key
reproduces the original bytes. -/
theorem maskBytes_maskBytes (k p : List Nat) : maskBytes k (maskBytes k p) = p :=
  maskFrom_maskFrom k 0 p

/-- `SimpleWebSocketClient._encode_frame`, with the random 4-byte mask key
(`os.urandom(4)`) made an explicit parameter. -/
def encodeFrame (payload : List Nat) (opcode : Nat) (maskKey : List Nat) : List Nat :=
  let finOpcode := 0x80 ||| opcode
  let maskBit := 0x80
  let length := payload.length
  let header :=
    if length < 126 then [finOpcode, maskBit ||| length]
    else if length < 65536 then [finOpcode, maskBit ||| 126] ++ beBytes 2 length
    else [finOpcode, maskBit ||| 127] ++ beBytes 8 length
  header ++ maskKey ++ maskBytes maskKey payload

/-! ### SHA-1 and base64, for the handshake accept value -/

/-- Truncation to a 32-bit word. -/
def w32 (n : Nat) : Nat := n % 4294967296

/-- 32-bit left rotation of `n` (assumed `< 2^32`) by `s` (assumed `< 32`). -/
def rotl32 (n s : Nat) : Nat := (w32 (n <<< s)) ||| (n >>> (32 - s))

/-- The SHA-1 round logical function `f_t`. -/
def sha1F (t b c d : Nat) : Nat :=
  if t < 20 then (b &&& c) ||| ((b ^^^ 4294967295) &&& d)
  else if t < 40 then b ^^^ c ^^^ d
  else if t < 60 then (b &&& c) ||| (b &&& d) ||| (c &&& d)
  else b ^^^ c ^^^ d

/-- The SHA-1 round constant `K_t`. -/
def sha1K (t : Nat) : Nat :=
  if t < 20 then 0x5A827999
  else if t < 40 then 0x6ED9EBA1
  else if t < 60 then 0x8F1BBCDC
  else 0xCA62C1D6

/-- Group a byte list into big-endian 32-bit words. -/
def toWords : List Nat → List Nat
  | b0 :: b1 :: b2 :: b3 :: rest =>
    (((b0 * 256 + b1) * 256 + b2) * 256 + b3) :: toWords rest
  | _ => []

/-- Extend the 16-word message schedule to 80 words. -/
def sha1Extend (w : List Nat) (t fuel : Nat) : List Nat :=
  match fuel with
  | 0 => w
  | fuel + 1 =>
    sha1Extend
      (w ++ [rotl32 (w.getD (t - 3) 0 ^^^ w.getD (t - 8) 0 ^^^
                     w.getD (t - 14) 0 ^^^ w.getD (t - 16) 0) 1])
      (t + 1) fuel

/-- One round of the SHA-1 compression function. -/
def sha1Round (t : Nat) (st : Nat × Nat × Nat × Nat × Nat) (wt : Nat) :
    Nat × Nat × Nat × Nat × Nat :=
  let (a, b, c, d, e) := st
  (w32 (rotl32 a 5 + sha1F t b c d + e + wt + sha1K t), a, rotl32 b 30, c, d)

/-- Fold the 80 rounds over the message schedule, tracking the round index. -/
def sha1Rounds (t : Nat) (st : Nat × Nat × Nat × Nat × Nat) :
    List Nat → Nat × Nat × Nat × Nat × Nat
  | [] => st
  | wt :: ws => sha1Rounds (t + 1) (sha1Round t st wt) ws

/-- Process one 16-word block, updating the 5-word hash state. -/
def sha1Block (h : List Nat) (block : List Nat) : List Nat :=
  let w := sha1Extend block 16 64
  let h0 := h.getD 0 0
  let h1 := h.getD 1 0
  let h2 := h.getD 2 0
  let h3 := h.getD 3 0
  let h4 := h.getD 4 0
  let (a, b, c, d, e) := sha1Rounds 0 (h0, h1, h2, h3, h4) w
  [w32 (h0 + a), w32 (h1 + b), w32 (h2 + c), w32 (h3 + d), w32 (h4 + e)]

/-- SHA-1 padding: append `0x80`, zero bytes to 56 mod 64, then the bit
length as a 64-bit big-endian integer. -/
def sha1Pad (m : List Nat) : List Nat :=
  m ++ [0x80] ++ List.replicate ((119 - m.length % 64) % 64) 0 ++ beBytes 8 (8 * m.length)

/-- Split a byte list into 16-word blocks; fuel-driven so that it reduces
definitionally (the fuel bounds the number of blocks). -/
def chunkWordsF : Nat → List Nat → List (List Nat)
  | 0, _ => []
  | _, [] => []
  | fuel + 1, b :: bs => toWords ((b :: bs).take 64) :: chunkWordsF fuel ((b :: bs).drop 64)

/-- Split a (padded) byte list into 16-word blocks. -/
def chunkWords (bytes : List Nat) : List (List Nat) := chunkWordsF bytes.length bytes

/-- SHA-1 of a byte list, as 20 bytes (`hashlib.sha1(...).digest()`). -/
def sha1 (m : List Nat) : List Nat :=
  let h := (chunkWords (sha1Pad m)).foldl sha1Block
    [0x67452301, 0xEFCDAB89, 0x98BADCFE, 0x10325476, 0xC3D2E1F0]
  (h.map (beBytes 4)).flatten

/-- The base64 alphabet as ASCII codes. -/
def b64Alphabet : List Nat :=
  ((List.range 26).map (65 + ·)) ++ ((List.range 26).map (97 + ·)) ++
    ((List.range 10).map (48 + ·)) ++ [43, 47]

/-- Standard base64 encoding with `=` padding (`base64.b64encode`), as ASCII
codes. -/
def base64Encode : List Nat → List Nat
  | b0 :: b1 :: b2 :: rest =>
    b64Alphabet.getD (b0 >>> 2) 0 ::
    b64Alphabet.getD (((b0 &&& 3) <<< 4) ||| (b1 >>> 4)) 0 ::
    b64Alphabet.getD (((b1 &&& 15) <<< 2) ||| (b2 >>> 6)) 0 ::
    b64Alphabet.getD (b2 &&& 63) 0 :: base64Encode rest
  | [b0, b1] =>
    [b64Alphabet.getD (b0 >>> 2) 0,
     b64Alphabet.getD (((b0 &&& 3) <<< 4) ||| (b1 >>> 4)) 0,
     b64Alphabet.getD ((b1 &&& 15) <<< 2) 0, 61]
  | [b0] =>
    [b64Alphabet.getD (b0 >>> 2) 0, b64Alphabet.getD ((b0 &&& 3) <<< 4) 0, 61, 61]
  | [] => []

/-- `GUID` constant from the source. -/
def GUID : String := "258EAFA5-E914-47DA-95CA-C5AB0DC85B11"

/-- ASCII bytes of a string (`str.encode("ascii")` for ASCII input). -/
def strBytes (s : String) : List Nat := s.data.map Char.toNat

/-- The expected `Sec-WebSocket-Accept` value computed in `connect`:
`base64.b64encode(hashlib.sha1(f"{key}{GUID}".encode("ascii")).digest())`. -/
def acceptValue (key : String) : String :=
  String.mk ((base64Encode (sha1 (strBytes (key ++ GUID)))).map Char.ofNat)

/-! ### Socket model and frame decoding -/

/-- Result of one `sock.recv` call: a chunk of bytes (empty chunk = peer
closed the connection) or an elapsed read timeout (`socket.timeout`). -/
inductive NetEvent
  | chunk (data : List Nat)
  | timeout
deriving DecidableEq

/-- Errors surfaced by the client. `outOfEvents` is a model artifact: the
scheduled socket behavior ran out (a real blocking socket would block). -/
inductive WsError
  | connClosed
  | sockTimeout
  | outOfEvents
  | notConnected
deriving DecidableEq

/-- Connection state: the `self.buffer` leftover bytes plus the scheduled
socket behavior. -/
structure NetState where
  buffer : List Nat
  events : List NetEvent
deriving DecidableEq

/-- The `while len(self.buffer) < length` loop of `_read_exact`; errors carry
the connection state, since `self.buffer` mutations persist when an exception
propagates. -/
def readExactGo (length : Nat) : List Nat → List NetEvent →
    Except (WsError × NetState) (List Nat × NetState)
  | buffer, events =>
    if buffer.length < length then
      match events with
      | [] => .error (.outOfEvents, ⟨buffer, []⟩)
      | .timeout :: rest => .error (.sockTimeout, ⟨buffer, rest⟩)
      | .chunk [] :: rest => .error (.connClosed, ⟨buffer, rest⟩)
      | .chunk (c :: cs) :: rest => readExactGo length (buffer ++ c :: cs) rest
    else .ok (buffer.take length, ⟨buffer.drop length, events⟩)

/-- `SimpleWebSocketClient._read_exact`. -/
def readExact (length : Nat) (st : NetState) :
    Except (WsError × NetState) (List Nat × NetState) :=
  if length = 0 then .ok ([], st)
  else readExactGo length st.buffer st.events

/-- `SimpleWebSocketClient._recv_frame` (with `self.sock` present): returns
`none` when `socket.timeout` interrupts the 2-byte header read, otherwise a
complete `(opcode, payload)` pair or a propagated error. -/
def recvFrame (st : NetState) :
    Except (WsError × NetState) (Option (Nat × List Nat) × NetState) :=
  match readExact 2 st with
  | .error (.sockTimeout, st') => .ok (none, st')
  | .error e => .error e
  | .ok (header, st1) =>
    let b1 := header.getD 0 0
    let b2 := header.getD 1 0
    let opcode := b1 &&& 0x0F
    let masked := b2 &&& 0x80
    let length0 := b2 &&& 0x7F
    let lengthRes : Except (WsError × NetState) (Nat × NetState) :=
      if length0 = 126 then
        match readExact 2 st1 with
        | .error e => .error e
        | .ok (lengthBytes, st2) => .ok (beVal lengthBytes, st2)
      else if length0 = 127 then
        match readExact 8 st1 with
        | .error e => .error e
        | .ok (lengthBytes, st2) => .ok (beVal lengthBytes, st2)
      else .ok (length0, st1)
    match lengthRes with
    | .error e => .error e
    | .ok (length, st2) =>
      let maskRes : Except (WsError × NetState) (Option (List Nat) × NetState) :=
        if masked ≠ 0 then
          match readExact 4 st2 with
          | .error e => .error e
          | .ok (mk, st3) => .ok (some mk, st3)
        else .ok (none, st2)
      match maskRes with
      | .error e => .error e
      | .ok (maskKey, st3) =>
        match readExact length st3 with
        | .error e => .error e
        | .ok (payload, st4) =>
          let payload :=
            match maskKey with
            | some mk => if masked ≠ 0 ∧ mk ≠ [] then maskBytes mk payload else payload
            | none => payload
          .ok (some (opcode, payload), st4)

/-! ### Handshake check -/

/-- The `RuntimeError` raised by `connect` on a failed handshake, carrying
the observed status and accept value. -/
inductive HandshakeError
  | handshakeFailed (status : Int) (accept : Option String)
deriving DecidableEq

/-- The acceptance check at the end of `connect`:
`if response["status"] != 101 or actual_accept != expected_accept: raise`.
`accept` is `response["headers"].get("sec-websocket-accept")`. -/
def handshakeCheck (status : Int) (accept : Option String) (key : String) :
    Except HandshakeError Unit :=
  if status ≠ 101 ∨ accept ≠ some (acceptValue key) then
    .error (.handshakeFailed status accept)
  else .ok ()

/-! ### Status-line parsing (`_read_http_response`) -/

/-- `str.split()` with no argument: split on whitespace runs, no empty
tokens.  `acc` holds the current token reversed. -/
def pySplitGo (acc : List Char) : List Char → List (List Char)
  | [] => if acc.isEmpty then [] else [acc.reverse]
  | c :: rest =>
    if c.isWhitespace then
      if acc.isEmpty then pySplitGo [] rest else acc.reverse :: pySplitGo [] rest
    else pySplitGo (c :: acc) rest

/-- `status_line.split()`. -/
def pySplitWs (s : List Char) : List (List Char) := pySplitGo [] s

/-- After a leading digit, Python `int()` accepts further digits with single
underscores strictly between digits. -/
def digitsTail : List Char → Bool
  | [] => true
  | '_' :: d :: rest => d.isDigit && digitsTail rest
  | '_' :: [] => false
  | c :: rest => c.isDigit && digitsTail rest

/-- A valid Python `int()` digit sequence (after sign stripping). -/
def pyDigitsOk : List Char → Bool
  | [] => false
  | c :: rest => c.isDigit && digitsTail rest

/-- Numeric value of a digit sequence, ignoring underscores. -/
def pyDigitsVal (ds : List Char) : Nat :=
  (ds.filter (· ≠ '_')).foldl (fun a c => a * 10 + (c.toNat - 48)) 0

/-- Python `int(s)`: optional surrounding whitespace, optional sign, digits
(with underscores between digits); `none` models a raised `ValueError`. -/
def pyIntParse (s : List Char) : Option Int :=
  let t := ((s.dropWhile Char.isWhitespace).reverse.dropWhile Char.isWhitespace).reverse
  match t with
  | '+' :: ds => if pyDigitsOk ds then some (pyDigitsVal ds) else none
  | '-' :: ds => if pyDigitsOk ds then some (-(pyDigitsVal ds : Int)) else none
  | ds => if pyDigitsOk ds then some (pyDigitsVal ds) else none

/-- The status-line parse in `_read_http_response`:
`int(status_line.split()[1])`, with `IndexError`/`ValueError` degrading to
the sentinel `-1`. -/
def parseStatus (statusLine : List Char) : Int :=
  match (pySplitWs statusLine).drop 1 with
  | [] => -1
  | tok :: _ =>
    match pyIntParse tok with
    | some n => n
    | none => -1

/-! ### Receive loop (`read_messages`) -/

/-- Observable effects of one loop iteration: a printed text payload or a
pong frame written to the socket. -/
inductive OutEvent
  | printed (payload : List Nat)
  | sentPong (frame : List Nat)
deriving DecidableEq

/-- The frame dispatch in the body of `read_messages` (lines 219-225); the
pong's fresh mask key is an explicit parameter. -/
def handleFrame (maskKey : List Nat) (opcode : Nat) (payload : List Nat) :
    List OutEvent × Bool :=
  if opcode = 0x1 then ([.printed payload], false)
  else if opcode = 0x9 then ([.sentPong (encodeFrame payload 0xA maskKey)], false)
  else if opcode = 0x8 then ([], true)
  else ([], false)

/-- Outcome of one `_recv_frame` attempt inside the loop: `timeoutInner` is a
`socket.timeout` escaping `_recv_frame` (caught by the loop), `noFrame` a
`None` result, `closedDuringRead` a propagating `ConnectionError`, `frame` a
decoded frame.  The list length models the iterations the time budget
allows. -/
inductive LoopEvent
  | timeoutInner
  | noFrame
  | closedDuringRead
  | frame (opcode : Nat) (payload : List Nat) (maskKey : List Nat)

/-- The `while time.time() < end_time` loop of `read_messages`, driven by
one `LoopEvent` per iteration; an exhausted list is the deadline passing. -/
def readMessagesLoop : List LoopEvent → Except WsError (List OutEvent)
  | [] => .ok []
  | .timeoutInner :: rest => readMessagesLoop rest
  | .noFrame :: rest => readMessagesLoop rest
  | .closedDuringRead :: _ => .error .connClosed
  | .frame op p k :: rest =>
    let (outs, stop) := handleFrame k op p
    if stop then .ok outs
    else
      match readMessagesLoop rest with
      | .ok more => .ok (outs ++ more)
      | .error e => .error e

/-- `remaining = max(0.1, end_time - time.time())` (line 211), over exact
rationals. -/
def pollGranularity : ℚ := 1 / 10

/-- The per-iteration read timeout computed by `read_messages`. -/
def remainingTimeout (endTime now : ℚ) : ℚ := max pollGranularity (endTime - now)

/-! ### Client state (`send_text`, `send_json`, `close`) -/

/-- The fields of `SimpleWebSocketClient` relevant to the send/close
lifecycle; `sock = none` models `self.sock is None`. -/
structure WsClient where
  sock : Option Nat
  buffer : List Nat
deriving DecidableEq

/-- `send_text`: raises `RuntimeError` when not connected, otherwise writes
one masked text frame (the UTF-8 bytes of the text are the payload). -/
def sendText (c : WsClient) (textBytes maskKey : List Nat) :
    Except WsError (WsClient × List (List Nat)) :=
  match c.sock with
  | none => .error .notConnected
  | some _ => .ok (c, [encodeFrame textBytes 0x1 maskKey])

/-- `send_json`: `self.send_text(json.dumps(payload, ensure_ascii=False))`;
the serialized JSON bytes are a parameter. -/
def sendJson (c : WsClient) (jsonBytes maskKey : List Nat) :
    Except WsError (WsClient × List (List Nat)) :=
  sendText c jsonBytes maskKey

/-- `close`: when a socket is present, best-effort send of a masked
empty-payload close frame (an `OSError` is swallowed; the list records the
attempted write), then the socket is released and `self.sock = None`;
otherwise a no-op. -/
def close (c : WsClient) (maskKey : List Nat) : WsClient × List (List Nat) :=
  match c.sock with
  | none => (c, [])
  | some _ => ({ c with sock := none }, [encodeFrame [] 0x8 maskKey])

/-! ### Lemmas about `readExact` -/

/-- When the buffer already holds enough bytes, `_read_exact` consumes no
socket events and returns the first `n` buffered bytes. -/
theorem readExact_of_le (n : Nat) (buf : List Nat) (ev : List NetEvent)
    (h : n ≤ buf.length) :
    readExact n ⟨buf, ev⟩ = .ok (buf.take n, ⟨buf.drop n, ev⟩) := by
  unfold readExact
  rcases Nat.eq_zero_or_pos n with h0 | h0
  · subst h0; simp
  · have hn : ¬n = 0 := by omega
    have hlt : ¬buf.length < n := by omega
    simp only [hn, if_false]
    unfold readExactGo
    simp [hlt]

theorem readExactGo_length {n : Nat} {buf : List Nat} {ev : List NetEvent}
    {d : List Nat} {st' : NetState}
    (h : readExactGo n buf ev = .ok (d, st')) : d.length = n := by
  induction ev generalizing buf with
  | nil =>
    unfold readExactGo at h
    split at h
    · exact absurd h (by simp)
    · rename_i hge
      obtain ⟨h1, _⟩ := Prod.mk.injEq .. ▸ Except.ok.injEq .. ▸ h
      simp [← h1]
      omega
  | cons e rest ih =>
    unfold readExactGo at h
    split at h
    · match e, h with
      | .timeout, h => exact absurd h (by simp)
      | .chunk [], h => exact absurd h (by simp)
      | .chunk (c :: cs), h => exact ih h
    · rename_i hge
      obtain ⟨h1, _⟩ := Prod.mk.injEq .. ▸ Except.ok.injEq .. ▸ h
      simp [← h1]
      omega

/-- `_read_exact(n)` never returns a short read: a successful result has
exactly `n` bytes. -/
theorem readExact_length {n : Nat} {st : NetState} {d : List Nat} {st' : NetState}
    (h : readExact n st = .ok (d, st')) : d.length = n := by
  unfold readExact at h
  split at h
  · rename_i h0
    obtain ⟨h1, _⟩ := Prod.mk.injEq .. ▸ Except.ok.injEq .. ▸ h
    simp [← h1, h0]
  · exact readExactGo_length h

/-! ### Round-trip: decoding an encoded frame -/

theorem lor128_and15 : ∀ o < 16, (128 ||| o) &&& 15 = o := by decide

theorem lor128_and127 : ∀ n < 128, (128 ||| n) &&& 127 = n := by decide

theorem lor128_and128 : ∀ n < 128, (128 ||| n) &&& 128 = 128 := by decide

theorem recvFrame_encode_small (P K : List Nat) (O : Nat) (ev : List NetEvent)
    (hO : O < 16) (hK : K.length = 4) (h1 : P.length < 126) :
    recvFrame ⟨encodeFrame P O K, ev⟩ = .ok (some (O, P), ⟨[], ev⟩) := by
  have hKne : K ≠ [] := fun h => by simp [h] at hK
  have hM : (maskBytes K P).length = P.length := maskBytes_length K P
  have hbuf : encodeFrame P O K =
      (128 ||| O) :: (128 ||| P.length) :: (K ++ maskBytes K P) := by
    simp [encodeFrame, h1]
  have e2 : readExact 2 ⟨encodeFrame P O K, ev⟩ =
      .ok ([128 ||| O, 128 ||| P.length], ⟨K ++ maskBytes K P, ev⟩) := by
    rw [hbuf, readExact_of_le] <;> simp
  have e4 : readExact 4 ⟨K ++ maskBytes K P, ev⟩ =
      .ok (K, ⟨maskBytes K P, ev⟩) := by
    rw [readExact_of_le _ _ _ (by simp [hK]), List.take_left' hK, List.drop_left' hK]
  have epay : readExact P.length ⟨maskBytes K P, ev⟩ =
      .ok (maskBytes K P, ⟨[], ev⟩) := by
    rw [readExact_of_le _ _ _ (by omega),
      List.take_of_length_le (by omega), List.drop_of_length_le (by omega)]
  have hlen0 : (128 ||| P.length) &&& 127 = P.length := lor128_and127 _ (by omega)
  have hmask : (128 ||| P.length) &&& 128 = 128 := lor128_and128 _ (by omega)
  simp only [recvFrame, e2, List.getD_cons_zero, List.getD_cons_succ, hlen0, hmask,
    lor128_and15 O hO]
  have h127 : ¬P.length = 127 := by omega
  have h126 : ¬P.length = 126 := by omega
  simp only [if_neg h127, if_neg h126]
  simp [e4, epay, hKne, maskBytes_maskBytes]

theorem recvFrame_encode_mid (P K : List Nat) (O : Nat) (ev : List NetEvent)
    (hO : O < 16) (hK : K.length = 4) (h1 : 126 ≤ P.length) (h2 : P.length < 65536) :
    recvFrame ⟨encodeFrame P O K, ev⟩ = .ok (some (O, P), ⟨[], ev⟩) := by
  have hKne : K ≠ [] := fun h => by simp [h] at hK
  have hM : (maskBytes K P).length = P.length := maskBytes_length K P
  have hbe : (beBytes 2 P.length).length = 2 := beBytes_length 2 P.length
  have hbuf : encodeFrame P O K =
      (128 ||| O) :: 254 :: (beBytes 2 P.length ++ (K ++ maskBytes K P)) := by
    simp only [encodeFrame, (by decide : (128 ||| 126 : Nat) = 254)]
    rw [if_neg (by omega : ¬P.length < 126), if_pos h2]
    simp
  have e2 : readExact 2 ⟨encodeFrame P O K, ev⟩ =
      .ok ([128 ||| O, 254], ⟨beBytes 2 P.length ++ (K ++ maskBytes K P), ev⟩) := by
    rw [hbuf, readExact_of_le] <;> simp
  have elen : readExact 2 ⟨beBytes 2 P.length ++ (K ++ maskBytes K P), ev⟩ =
      .ok (beBytes 2 P.length, ⟨K ++ maskBytes K P, ev⟩) := by
    rw [readExact_of_le _ _ _ (by simp [hbe]), List.take_left' hbe, List.drop_left' hbe]
  have e4 : readExact 4 ⟨K ++ maskBytes K P, ev⟩ =
      .ok (K, ⟨maskBytes K P, ev⟩) := by
    rw [readExact_of_le _ _ _ (by simp [hK]), List.take_left' hK, List.drop_left' hK]
  have epay : readExact P.length ⟨maskBytes K P, ev⟩ =
      .ok (maskBytes K P, ⟨[], ev⟩) := by
    rw [readExact_of_le _ _ _ (by omega),
      List.take_of_length_le (by omega), List.drop_of_length_le (by omega)]
  have hval : beVal (beBytes 2 P.length) = P.length :=
    beVal_beBytes 2 P.length (lt_of_lt_of_le h2 (by norm_num))
  simp only [recvFrame, e2, List.getD_cons_zero, List.getD_cons_succ,
    lor128_and15 O hO, (by decide : (254 &&& 127 : Nat) = 126),
    (by decide : (254 &&& 128 : Nat) = 128)]
  simp [elen, hval, e4, epay, hKne, maskBytes_maskBytes]

theorem recvFrame_encode_large (P K : List Nat) (O : Nat) (ev : List NetEvent)
    (hO : O < 16) (hK : K.length = 4) (h1 : 65536 ≤ P.length)
    (hlen : P.length < 2 ^ 64) :
    recvFrame ⟨encodeFrame P O K, ev⟩ = .ok (some (O, P), ⟨[], ev⟩) := by
  have hKne : K ≠ [] := fun h => by simp [h] at hK
  have hM : (maskBytes K P).length = P.length := maskBytes_length K P
  have hbe : (beBytes 8 P.length).length = 8 := beBytes_length 8 P.length
  have hbuf : encodeFrame P O K =
      (128 ||| O) :: 255 :: (beBytes 8 P.length ++ (K ++ maskBytes K P)) := by
    simp only [encodeFrame, (by decide : (128 ||| 127 : Nat) = 255)]
    rw [if_neg (by omega : ¬P.length < 126), if_neg (by omega : ¬P.length < 65536)]
    simp
  have e2 : readExact 2 ⟨encodeFrame P O K, ev⟩ =
      .ok ([128 ||| O, 255], ⟨beBytes 8 P.length ++ (K ++ maskBytes K P), ev⟩) := by
    rw [hbuf, readExact_of_le] <;> simp
  have elen : readExact 8 ⟨beBytes 8 P.length ++ (K ++ maskBytes K P), ev⟩ =
      .ok (beBytes 8 P.length, ⟨K ++ maskBytes K P, ev⟩) := by
    rw [readExact_of_le _ _ _ (by simp [hbe]), List.take_left' hbe, List.drop_left' hbe]
  have e4 : readExact 4 ⟨K ++ maskBytes K P, ev⟩ =
      .ok (K, ⟨maskBytes K P, ev⟩) := by
    rw [readExact_of_le _ _ _ (by simp [hK]), List.take_left' hK, List.drop_left' hK]
  have epay : readExact P.length ⟨maskBytes K P, ev⟩ =
      .ok (maskBytes K P, ⟨[], ev⟩) := by
    rw [readExact_of_le _ _ _ (by omega),
      List.take_of_length_le (by omega), List.drop_of_length_le (by omega)]
  have hval : beVal (beBytes 8 P.length) = P.length :=
    beVal_beBytes 8 P.length (lt_of_lt_of_le hlen (by norm_num))
  simp only [recvFrame, e2, List.getD_cons_zero, List.getD_cons_succ,
    lor128_and15 O hO, (by decide : (255 &&& 127 : Nat) = 127),
    (by decide : (255 &&& 128 : Nat) = 128)]
  simp [elen, hval, e4, epay, hKne, maskBytes_maskBytes]

/-- Decoding a frame produced by `_encode_frame` with the frame's whole byte
string as the buffered input recovers exactly the opcode and payload, in
every length-encoding tier. -/
theorem recvFrame_encodeFrame (P K : List Nat) (O : Nat) (ev : List NetEvent)
    (hO : O < 16) (hK : K.length = 4) (hlen : P.length < 2 ^ 64) :
    recvFrame ⟨encodeFrame P O K, ev⟩ = .ok (some (O, P), ⟨[], ev⟩) := by
  rcases lt_or_le P.length 126 with h1 | h1
  · exact recvFrame_encode_small P K O ev hO hK h1
  rcases lt_or_le P.length 65536 with h2 | h2
  · exact recvFrame_encode_mid P K O ev hO hK h1 h2
  · exact recvFrame_encode_large P K O ev hO hK h2 hlen

/-- A frame returned by `_recv_frame` is complete: the 2 header bytes were
fully read, the opcode is the low 4 bits of the first, the payload has
exactly the length declared by the (possibly extended) length field, and
when the mask flag is set the payload is the cyclic XOR of the raw payload
bytes with the 4 read mask-key bytes. -/
def FrameComplete (st : NetState) (op : Nat) (p : List Nat) : Prop :=
  ∃ b1 b2 st1, readExact 2 st = .ok ([b1, b2], st1) ∧ op = b1 &&& 15 ∧
    ∃ len st2,
      ((¬b2 &&& 127 = 126 ∧ ¬b2 &&& 127 = 127 ∧ len = b2 &&& 127 ∧ st2 = st1) ∨
       (b2 &&& 127 = 126 ∧ ∃ lb, readExact 2 st1 = .ok (lb, st2) ∧ len = beVal lb) ∨
       (b2 &&& 127 = 127 ∧ ∃ lb, readExact 8 st1 = .ok (lb, st2) ∧ len = beVal lb)) ∧
      p.length = len ∧
      ((b2 &&& 128 = 0 → ∃ st4, readExact len st2 = .ok (p, st4)) ∧
       (¬b2 &&& 128 = 0 → ∃ key raw st3 st4, readExact 4 st2 = .ok (key, st3) ∧
          key.length = 4 ∧ readExact len st3 = .ok (raw, st4) ∧ raw.length = len ∧
          p = maskBytes key raw))

theorem recvFrame_ok_complete {st st' : NetState} {op : Nat} {p : List Nat}
    (h : recvFrame st = .ok (some (op, p), st')) : FrameComplete st op p := by
  unfold recvFrame at h
  rcases e2 : readExact 2 st with ⟨we, st0⟩ | ⟨hd, st1⟩
  · cases we <;> simp [e2] at h
  obtain ⟨b1, b2, rfl⟩ := List.length_eq_two.mp (readExact_length e2)
  simp only [e2, List.getD_cons_zero, List.getD_cons_succ] at h
  refine ⟨b1, b2, st1, e2, ?_⟩
  by_cases h126 : b2 &&& 127 = 126
  · simp only [if_pos h126] at h
    rcases el : readExact 2 st1 with ⟨we, st0⟩ | ⟨lb, st2⟩
    · simp [el] at h
    simp only [el] at h
    by_cases hmz : b2 &&& 128 = 0
    · simp only [hmz, ne_eq, not_true_eq_false, if_false] at h
      rcases ep : readExact (beVal lb) st2 with ⟨we, st0⟩ | ⟨raw, st4⟩
      · simp [ep] at h
      simp only [ep, Except.ok.injEq, Option.some.injEq, Prod.mk.injEq] at h
      obtain ⟨⟨rfl, rfl⟩, rfl⟩ := h
      exact ⟨rfl, beVal lb, st2, Or.inr (Or.inl ⟨h126, lb, rfl, rfl⟩),
        readExact_length ep, fun _ => ⟨st4, ep⟩, fun hc => absurd hmz hc⟩
    · rw [if_pos hmz] at h
      rcases em : readExact 4 st2 with ⟨we, st0⟩ | ⟨key, st3⟩
      · simp [em] at h
      simp only [em] at h
      rcases ep : readExact (beVal lb) st3 with ⟨we, st0⟩ | ⟨raw, st4⟩
      · simp [ep] at h
      have hkey4 : key.length = 4 := readExact_length em
      have hkne : key ≠ [] := fun hk => by simp [hk] at hkey4
      simp only [ep, if_pos (And.intro hmz hkne), Except.ok.injEq, Option.some.injEq,
        Prod.mk.injEq] at h
      obtain ⟨⟨rfl, rfl⟩, rfl⟩ := h
      refine ⟨rfl, beVal lb, st2, Or.inr (Or.inl ⟨h126, lb, rfl, rfl⟩), ?_,
        fun hc => absurd hc hmz,
        fun _ => ⟨key, raw, st3, st4, em, hkey4, ep, readExact_length ep, rfl⟩⟩
      rw [maskBytes_length, readExact_length ep]
  by_cases h127 : b2 &&& 127 = 127
  · simp only [if_neg h126, if_pos h127] at h
    rcases el : readExact 8 st1 with ⟨we, st0⟩ | ⟨lb, st2⟩
    · simp [el] at h
    simp only [el] at h
    by_cases hmz : b2 &&& 128 = 0
    · simp only [hmz, ne_eq, not_true_eq_false, if_false] at h
      rcases ep : readExact (beVal lb) st2 with ⟨we, st0⟩ | ⟨raw, st4⟩
      · simp [ep] at h
      simp only [ep, Except.ok.injEq, Option.some.injEq, Prod.mk.injEq] at h
      obtain ⟨⟨rfl, rfl⟩, rfl⟩ := h
      exact ⟨rfl, beVal lb, st2, Or.inr (Or.inr ⟨h127, lb, rfl, rfl⟩),
        readExact_length ep, fun _ => ⟨st4, ep⟩, fun hc => absurd hmz hc⟩
    · rw [if_pos hmz] at h
      rcases em : readExact 4 st2 with ⟨we, st0⟩ | ⟨key, st3⟩
      · simp [em] at h
      simp only [em] at h
      rcases ep : readExact (beVal lb) st3 with ⟨we, st0⟩ | ⟨raw, st4⟩
      · simp [ep] at h
      have hkey4 : key.length = 4 := readExact_length em
      have hkne : key ≠ [] := fun hk => by simp [hk] at hkey4
      simp only [ep, if_pos (And.intro hmz hkne), Except.ok.injEq, Option.some.injEq,
        Prod.mk.injEq] at h
      obtain ⟨⟨rfl, rfl⟩, rfl⟩ := h
      refine ⟨rfl, beVal lb, st2, Or.inr (Or.inr ⟨h127, lb, rfl, rfl⟩), ?_,
        fun hc => absurd hc hmz,
        fun _ => ⟨key, raw, st3, st4, em, hkey4, ep, readExact_length ep, rfl⟩⟩
      rw [maskBytes_length, readExact_length ep]
  · simp only [if_neg h126, if_neg h127] at h
    by_cases hmz : b2 &&& 128 = 0
    · simp only [hmz, ne_eq, not_true_eq_false, if_false] at h
      rcases ep : readExact (b2 &&& 127) st1 with ⟨we, st0⟩ | ⟨raw, st4⟩
      · simp [ep] at h
      simp only [ep, Except.ok.injEq, Option.some.injEq, Prod.mk.injEq] at h
      obtain ⟨⟨rfl, rfl⟩, rfl⟩ := h
      exact ⟨rfl, b2 &&& 127, st1, Or.inl ⟨h126, h127, rfl, rfl⟩,
        readExact_length ep, fun _ => ⟨st4, ep⟩, fun hc => absurd hmz hc⟩
    · rw [if_pos hmz] at h
      rcases em : readExact 4 st1 with ⟨we, st0⟩ | ⟨key, st3⟩
      · simp [em] at h
      simp only [em] at h
      rcases ep : readExact (b2 &&& 127) st3 with ⟨we, st0⟩ | ⟨raw, st4⟩
      · simp [ep] at h
      have hkey4 : key.length = 4 := readExact_length em
      have hkne : key ≠ [] := fun hk => by simp [hk] at hkey4
      simp only [ep, if_pos (And.intro hmz hkne), Except.ok.injEq, Option.some.injEq,
        Prod.mk.injEq] at h
      obtain ⟨⟨rfl, rfl⟩, rfl⟩ := h
      refine ⟨rfl, b2 &&& 127, st1, Or.inl ⟨h126, h127, rfl, rfl⟩, ?_,
        fun hc => absurd hc hmz,
        fun _ => ⟨key, raw, st3, st4, em, hkey4, ep, readExact_length ep, rfl⟩⟩
      rw [maskBytes_length, readExact_length ep]

/-! ### Header layout facts for `_encode_frame` -/

theorem lor128_eq_add : ∀ n < 128, (128 ||| n : Nat) = 128 + n := by decide

theorem testBit7_128add : ∀ n < 128, (128 + n).testBit 7 = true := by decide

/-- Frame header as §4.2 of the spec describes it: a FIN-plus-opcode byte,
then the mask flag with the direct 7-bit length for payloads under 126
bytes, marker 126 with a 16-bit big-endian extended length for 126..65535
bytes, and marker 127 with a 64-bit big-endian extended length for larger
payloads. -/
def specFrameHeader (len opcode : Nat) : List Nat :=
  if len < 126 then [128 + opcode, 128 + len]
  else if len ≤ 65535 then [128 + opcode, 254] ++ beBytes 2 len
  else [128 + opcode, 255] ++ beBytes 8 len

/-! ### Status-line and handshake lemmas -/

theorem pyIntParse_nil : pyIntParse [] = none := rfl

/-! ### Receive-loop timing -/

theorem pollGranularity_pos : (0 : ℚ) < pollGranularity := by
  norm_num [pollGranularity]

/-! ### Claim theorems -/

/-- C1: for every payload `P` and opcode `O` in `0..15`, decoding the frame
produced by `_encode_frame` (with any 4-byte mask key) yields exactly
`(O, P)`; the statement covers all payload lengths below `2^64` and hence
all three length-encoding tiers, in particular sizes 0, 1, 125, 126, 65535
and 65536. -/
theorem decode_encode_roundtrip (P K : List Nat) (O : Nat)
    (hO : O < 16) (hK : K.length = 4) (hlen : P.length < 2 ^ 64) :
    recvFrame ⟨encodeFrame P O K, []⟩ = .ok (some (O, P), ⟨[], []⟩) :=
  recvFrame_encodeFrame P K O [] hO hK hlen

theorem decode_encode_roundtrip_witness :
    recvFrame ⟨encodeFrame [5, 250] 1 [1, 2, 3, 4], []⟩ =
      .ok (some (1, [5, 250]), ⟨[], []⟩) :=
  decode_encode_roundtrip [5, 250] [1, 2, 3, 4] 1 (by decide) (by decide) (by decide)

/-- C2: the handshake check in `connect` succeeds iff the parsed status is
exactly 101 and the `Sec-WebSocket-Accept` header equals
`base64(SHA-1(key + GUID))`; when either condition fails alone the check
rejects with a handshake error carrying status and observed accept value. -/
theorem handshake_requires_status_and_accept (status : Int)
    (accept : Option String) (key : String) :
    (handshakeCheck status accept key = .ok () ↔
      status = 101 ∧ accept = some (acceptValue key)) ∧
    (status ≠ 101 →
      handshakeCheck status accept key = .error (.handshakeFailed status accept)) ∧
    (accept ≠ some (acceptValue key) →
      handshakeCheck status accept key = .error (.handshakeFailed status accept)) := by
  unfold handshakeCheck
  by_cases h1 : status = 101 <;> by_cases h2 : accept = some (acceptValue key) <;>
    simp [h1, h2]

theorem handshake_requires_status_and_accept_witness :
    handshakeCheck 200 none "key" = .error (.handshakeFailed 200 none) :=
  (handshake_requires_status_and_accept 200 none "key").2.1 (by decide)

/-- C3: during frame decode, a socket read returning zero bytes fails with
`ConnectionClosed`; a timeout elapsing before the 2 header bytes arrive
makes `_recv_frame` return `none` ("no frame available") instead of
erroring; and any frame `_recv_frame` does return is complete and correctly
unmasked (`FrameComplete`). -/
theorem recv_frame_error_handling :
    (∀ (n : Nat) (buf : List Nat) (rest : List NetEvent), buf.length < n →
      readExact n ⟨buf, .chunk [] :: rest⟩ = .error (.connClosed, ⟨buf, rest⟩)) ∧
    (∀ (buf : List Nat) (rest : List NetEvent), buf.length < 2 →
      recvFrame ⟨buf, .timeout :: rest⟩ = .ok (none, ⟨buf, rest⟩)) ∧
    (∀ (st st' : NetState) (op : Nat) (p : List Nat),
      recvFrame st = .ok (some (op, p), st') → FrameComplete st op p) := by
  refine ⟨?_, ?_, fun st st' op p h => recvFrame_ok_complete h⟩
  · intro n buf rest hlt
    unfold readExact
    rw [if_neg (by omega)]
    unfold readExactGo
    rw [if_pos hlt]
  · intro buf rest hlt
    have e2 : readExact 2 ⟨buf, .timeout :: rest⟩ =
        .error (.sockTimeout, ⟨buf, rest⟩) := by
      unfold readExact
      rw [if_neg (by omega)]
      unfold readExactGo
      rw [if_pos hlt]
    simp [recvFrame, e2]

theorem recv_frame_error_handling_witness :
    readExact 2 ⟨[], [.chunk []]⟩ = .error (.connClosed, ⟨[], []⟩) :=
  recv_frame_error_handling.1 2 [] [] (by decide)

/-- C4: every frame produced by `_encode_frame` is header, then the 4-byte
mask key, then the payload XOR-masked with the key cycling over its 4 bytes,
where the header has the FIN bit and the mask flag set and selects the
length encoding by payload size (direct 7-bit value below 126, marker 126
with 16-bit big-endian length for 126..65535, marker 127 with 64-bit
big-endian length above). -/
theorem encode_frame_format (P K : List Nat) (O : Nat)
    (hO : O < 16) (hK : K.length = 4) :
    encodeFrame P O K = specFrameHeader P.length O ++ K ++ maskBytes K P ∧
    ((encodeFrame P O K).getD 0 0).testBit 7 = true ∧
    ((encodeFrame P O K).getD 1 0).testBit 7 = true ∧
    (encodeFrame P O K).length = (specFrameHeader P.length O).length + 4 + P.length := by
  have hO' : (128 ||| O) = 128 + O := lor128_eq_add O (by omega)
  rcases lt_or_le P.length 126 with h1 | h1
  · have hbuf : encodeFrame P O K =
        (128 + O) :: (128 + P.length) :: (K ++ maskBytes K P) := by
      simp [encodeFrame, h1, hO', lor128_eq_add P.length (by omega)]
    have hspec : specFrameHeader P.length O = [128 + O, 128 + P.length] := by
      rw [specFrameHeader, if_pos h1]
    rw [hbuf, hspec]
    exact ⟨by simp, by simpa using testBit7_128add O (by omega),
      by simpa using testBit7_128add P.length (by omega),
      by simp [maskBytes_length, hK]; omega⟩
  rcases lt_or_le P.length 65536 with h2 | h2
  · have hbuf : encodeFrame P O K =
        (128 + O) :: 254 :: (beBytes 2 P.length ++ (K ++ maskBytes K P)) := by
      simp only [encodeFrame, hO', (by decide : (128 ||| 126 : Nat) = 254)]
      rw [if_neg (by omega), if_pos h2]
      simp
    have hspec : specFrameHeader P.length O = (128 + O) :: 254 :: beBytes 2 P.length := by
      rw [specFrameHeader, if_neg (by omega), if_pos (by omega)]
      simp
    rw [hbuf, hspec]
    exact ⟨by simp, by simpa using testBit7_128add O (by omega),
      by simp; decide,
      by simp [maskBytes_length, hK, beBytes_length]; omega⟩
  · have hbuf : encodeFrame P O K =
        (128 + O) :: 255 :: (beBytes 8 P.length ++ (K ++ maskBytes K P)) := by
      simp only [encodeFrame, hO', (by decide : (128 ||| 127 : Nat) = 255)]
      rw [if_neg (by omega), if_neg (by omega)]
      simp
    have hspec : specFrameHeader P.length O = (128 + O) :: 255 :: beBytes 8 P.length := by
      rw [specFrameHeader, if_neg (by omega), if_neg (by omega)]
      simp
    rw [hbuf, hspec]
    exact ⟨by simp, by simpa using testBit7_128add O (by omega),
      by simp; decide,
      by simp [maskBytes_length, hK, beBytes_length]; omega⟩

theorem encode_frame_format_witness :
    encodeFrame [9] 1 [1, 2, 3, 4] =
      specFrameHeader 1 1 ++ [1, 2, 3, 4] ++ maskBytes [1, 2, 3, 4] [9] :=
  (encode_frame_format [9] [1, 2, 3, 4] 1 (by decide) (by decide)).1

/-- C5: each iteration of `read_messages` uses
`remaining = max(0.1, end_time - now)` as the read timeout, so while the
loop condition `now < end_time` holds, the blocking read finishes by
`end_time` plus one poll granularity. -/
theorem read_messages_timeout_bound (endTime now : ℚ) (h : now < endTime) :
    pollGranularity ≤ remainingTimeout endTime now ∧
    now + remainingTimeout endTime now ≤ endTime + pollGranularity := by
  refine ⟨le_max_left _ _, ?_⟩
  rw [remainingTimeout]
  rcases max_cases pollGranularity (endTime - now) with ⟨hm, hle⟩ | ⟨hm, hlt⟩ <;> rw [hm]
  · linarith
  · linarith [pollGranularity_pos]

theorem read_messages_timeout_bound_witness :
    pollGranularity ≤ remainingTimeout 1 0 ∧
    (0 : ℚ) + remainingTimeout 1 0 ≤ 1 + pollGranularity :=
  read_messages_timeout_bound 1 0 (by decide)

/-- C6: a decoded ping frame (opcode `0x9`) with payload `X` causes exactly
one pong frame to be sent and nothing else for that iteration, and the sent
frame decodes to opcode `0xA` with payload exactly `X`. -/
theorem ping_sends_single_pong (X k : List Nat) (rest : List LoopEvent)
    (hk : k.length = 4) (hX : X.length < 2 ^ 64) :
    handleFrame k 0x9 X = ([.sentPong (encodeFrame X 0xA k)], false) ∧
    readMessagesLoop (.frame 0x9 X k :: rest) =
      (readMessagesLoop rest).map
        (fun more => .sentPong (encodeFrame X 0xA k) :: more) ∧
    (∀ ev, recvFrame ⟨encodeFrame X 0xA k, ev⟩ = .ok (some (0xA, X), ⟨[], ev⟩)) := by
  refine ⟨by simp [handleFrame], ?_,
    fun ev => recvFrame_encodeFrame X k 0xA ev (by norm_num) hk hX⟩
  simp only [readMessagesLoop, handleFrame]
  norm_num
  cases readMessagesLoop rest <;> simp [Except.map]

theorem ping_sends_single_pong_witness :
    handleFrame [1, 2, 3, 4] 0x9 [7] =
      ([.sentPong (encodeFrame [7] 0xA [1, 2, 3, 4])], false) :=
  (ping_sends_single_pong [7] [1, 2, 3, 4] [] (by decide) (by decide)).1

/-- C7: whenever the receive loop decodes a close frame (opcode `0x8`), it
terminates immediately and without an error, regardless of how many more
iterations the time budget would have allowed. -/
theorem close_frame_terminates_loop (p k : List Nat) (rest : List LoopEvent) :
    readMessagesLoop (.frame 0x8 p k :: rest) = .ok [] := by
  simp [readMessagesLoop, handleFrame]

/-- C8: the status-line parse is total, and whenever the second
whitespace-separated field is missing or fails Python `int()` parsing the
result is the sentinel `-1`, which the subsequent handshake check turns into
a handshake error rather than a crash. -/
theorem malformed_status_line_sentinel (cs : List Char)
    (h : pyIntParse (((pySplitWs cs).drop 1).headD []) = none) :
    parseStatus cs = -1 ∧
    (∀ (accept : Option String) (key : String),
      handshakeCheck (-1) accept key = .error (.handshakeFailed (-1) accept)) := by
  constructor
  · unfold parseStatus
    rcases hs : (pySplitWs cs).drop 1 with _ | ⟨tok, rest⟩
    · rfl
    · rw [hs] at h
      simp only [List.headD_cons] at h
      simp [h]
  · intro accept key
    rw [handshakeCheck, if_pos (Or.inl (by decide))]

theorem malformed_status_line_sentinel_witness :
    parseStatus ("HTTP/1.1 abc OK".data) = -1 :=
  (malformed_status_line_sentinel ("HTTP/1.1 abc OK".data) (by decide)).1

set_option maxRecDepth 100000 in
/-- C9: the accept-value computation applied to the key
`"dGhlIHNhbXBsZSBub25jZQ=="` yields exactly
`"s3pPLMBiTxaQ9kYGzzhZRbK+xOo="`. -/
theorem accept_value_canonical_vector :
    acceptValue "dGhlIHNhbXBsZSBub25jZQ==" = "s3pPLMBiTxaQ9kYGzzhZRbK+xOo=" := by
  decide

/-- C10: `send_text` (and therefore `send_json`) on a client whose socket is
not open raises `RuntimeError` and sends nothing; `close` in that state is a
no-op, and `close` after any `close` is a no-op, so `close` is idempotent. -/
theorem send_close_not_connected :
    (∀ (c : WsClient) (tb k : List Nat), c.sock = none →
      sendText c tb k = .error .notConnected) ∧
    (∀ (c : WsClient) (jb k : List Nat), c.sock = none →
      sendJson c jb k = .error .notConnected) ∧
    (∀ (c : WsClient) (k : List Nat), c.sock = none → close c k = (c, [])) ∧
    (∀ (c : WsClient) (k k' : List Nat),
      close (close c k).1 k' = ((close c k).1, [])) := by
  refine ⟨fun c tb k hc => ?_, fun c jb k hc => ?_, fun c k hc => ?_, fun c k k' => ?_⟩
  · rw [sendText, hc]
  · rw [sendJson, sendText, hc]
  · rw [close, hc]
  · rcases c with ⟨s, b⟩
    cases s <;> rfl

theorem send_close_not_connected_witness :
    close ⟨none, []⟩ [1, 2, 3, 4] = (⟨none, []⟩, []) :=
  send_close_not_connected.2.2.1 ⟨none, []⟩ [1, 2, 3, 4] rfl

end SensoryCameraClient
